import Mathlib

/-!
Verification of the librats specification against the repository sources.

The definitions below are a shallow embedding of the code in
`src/main.cpp` and `src/network_utils.cpp`, together with models of the
bencode codec, the DHT XOR metric and the automatic discovery loop, whose
implementation files are not part of the provided sources and are therefore
modelled from the specification text.
-/

namespace Librats

/-! ## Network utilities (`src/network_utils.cpp`)

C++ strings are modelled as Lean `String`; the OS resolver (`getaddrinfo`)
and the local-interface enumeration are modelled as explicit environment
parameters, since they are external to the repository.
-/

/-- Splits a character list on a separator, keeping empty fields
(the behaviour of scanning a dotted/coloned address literal). -/
def splitOnSep (sep : Char) : List Char → List (List Char)
  | [] => [[]]
  | c :: rest =>
    if c = sep then [] :: splitOnSep sep rest
    else
      match splitOnSep sep rest with
      | f :: fs => (c :: f) :: fs
      | [] => [[c]]

/-- ASCII decimal digit test. -/
def isDigitCh (c : Char) : Bool := 48 ≤ c.toNat && c.toNat ≤ 57

/-- ASCII hexadecimal digit test. -/
def isHexCh (c : Char) : Bool :=
  isDigitCh c || (97 ≤ c.toNat && c.toNat ≤ 102) || (65 ≤ c.toNat && c.toNat ≤ 70)

/-- Decimal value of a digit field. -/
def octetVal (f : List Char) : Nat := f.foldl (fun a c => a * 10 + (c.toNat - 48)) 0

/-- One dotted-quad field: one to three decimal digits with value at most 255. -/
def validOctet (f : List Char) : Bool :=
  decide (1 ≤ f.length) && decide (f.length ≤ 3) && f.all isDigitCh
    && decide (octetVal f ≤ 255)

/-- Model of `inet_pton(AF_INET, s)` as used by `is_valid_ipv4`
(`network_utils.cpp:112`): exactly four dotted-decimal fields. -/
def is_valid_ipv4 (s : String) : Bool :=
  let fs := splitOnSep '.' s.data
  decide (fs.length = 4) && fs.all validOctet

/-- One IPv6 group: one to four hexadecimal digits. -/
def validV6Group (f : List Char) : Bool :=
  decide (1 ≤ f.length) && decide (f.length ≤ 4) && f.all isHexCh

/-- Model of `inet_pton(AF_INET6, s)` as used by `is_valid_ipv6`
(`network_utils.cpp:117`): colon-separated hexadecimal groups with at most
one double-colon compression (embedded dotted-quad forms are not modelled). -/
def is_valid_ipv6 (s : String) : Bool :=
  let fs := splitOnSep ':' s.data
  let k := fs.length
  let e := (fs.filter (fun f => f.isEmpty)).length
  fs.all (fun f => f.isEmpty || validV6Group f) &&
    ((decide (e = 0) && decide (k = 8)) ||
     decide (fs = [[], [], []]) ||
     (decide (e = 1) && decide (k ≤ 8) && decide (fs.head? ≠ some [])
        && decide (fs.getLast? ≠ some [])) ||
     (decide (e = 2) && decide (k ≤ 9) && decide (fs.take 2 = [[], []])
        && decide (fs.getLast? ≠ some [])) ||
     (decide (e = 2) && decide (k ≤ 9) && decide (fs.reverse.take 2 = [[], []])
        && decide (fs.head? ≠ some [])))

/-- Whether the character list contains two consecutive dots
(`str.find("..")` in `is_hostname`). -/
def containsDoubleDot : List Char → Bool
  | c1 :: c2 :: rest => (c1 = '.' && c2 = '.') || containsDoubleDot (c2 :: rest)
  | _ => false

/-- Character codes rejected inside a hostname (`network_utils.cpp:152-161`). -/
def forbiddenHostCodes : List Nat :=
  [32, 64, 35, 36, 37, 94, 38, 42, 40, 41, 43, 61, 91, 93, 123, 125,
   124, 92, 47, 63, 60, 62, 44, 59, 58, 34, 39, 96, 126, 33]

/-- Embedding of `is_hostname` (`network_utils.cpp:122-164`). -/
def is_hostname (s : String) : Bool :=
  if is_valid_ipv4 s = true ∨ is_valid_ipv6 s = true then false
  else if s.data.isEmpty = true then false
  else if 253 < s.data.length then false
  else if s.data.head? = some '.' ∨ s.data.getLast? = some '.' then false
  else if s.data.head? = some '-' ∨ s.data.getLast? = some '-' then false
  else if containsDoubleDot s.data = true then false
  else if s = "." then false
  else s.data.all (fun c => !(forbiddenHostCodes.contains c.toNat))

/-- Address family tag returned by the resolver (`ai_family`). -/
inductive AddrFamily where
  | inet
  | inet6
  | other
deriving DecidableEq

/-- Environment for the OS resolver: `dnsV4` models
`getaddrinfo(..., AF_INET, ...)` (empty list = failure) and `dnsDual`
models `getaddrinfo(..., AF_UNSPEC, ...)`, each entry already rendered by
`inet_ntop`. -/
structure NetEnv where
  dnsV4 : String → List String
  dnsDual : String → List (AddrFamily × String)

/-- Embedding of `resolve_hostname` (`network_utils.cpp:30-69`). -/
def resolve_hostname (env : NetEnv) (hostname : String) : String :=
  if hostname = "" then ""
  else if is_valid_ipv4 hostname = true then hostname
  else
    match env.dnsV4 hostname with
    | [] => ""
    | ip :: _ => ip

/-- Embedding of `to_ip_address` (`network_utils.cpp:166-168`). -/
def to_ip_address (env : NetEnv) (host : String) : String :=
  resolve_hostname env host

/-- Embedding of `resolve_all_addresses` (`network_utils.cpp:170-213`). -/
def resolve_all_addresses (env : NetEnv) (hostname : String) : List String :=
  if is_valid_ipv4 hostname = true then [hostname]
  else env.dnsV4 hostname

/-- Embedding of `resolve_all_addresses_dual` (`network_utils.cpp:260-319`):
IP literals pass through; otherwise every `AF_INET` or `AF_INET6` entry of
the resolver result is kept in resolver order. -/
def resolve_all_addresses_dual (env : NetEnv) (hostname : String) : List String :=
  if is_valid_ipv4 hostname = true then [hostname]
  else if is_valid_ipv6 hostname = true then [hostname]
  else
    (env.dnsDual hostname).filterMap (fun e =>
      match e.1 with
      | AddrFamily.inet => some e.2
      | AddrFamily.inet6 => some e.2
      | AddrFamily.other => none)

/-- Embedding of `is_local_interface_address` (`network_utils.cpp:512-533`);
`localAddrs` stands for the list returned by
`get_local_interface_addresses()`. -/
def is_local_interface_address (localAddrs : List String) (ip : String) : Bool :=
  localAddrs.contains ip ||
    (ip == "127.0.0.1" || ip == "::1" || ip == "localhost")

/-! ## The CLI (`src/main.cpp`)

The interactive command loop of `main` is embedded as a pure function over
the finite trace of loop iterations: each iteration records the value
`client.is_running()` returned at the top of the loop and the line read by
`std::getline`.
-/

/-- Whitespace as skipped by `istringstream` extraction. -/
def isWsCh (c : Char) : Bool := c.toNat = 32 || c.toNat = 9

/-- The first whitespace-delimited token of a line (`iss >> command`). -/
def firstTok (line : String) : String :=
  String.mk ((line.data.dropWhile isWsCh).takeWhile (fun c => !isWsCh c))

/-- Command names recognized by the `else if` chain of the command loop
(`main.cpp:255-817`), excluding `quit`/`exit` which break the loop. -/
def knownCommands : List String :=
  ["help", "version", "peers", "list", "broadcast", "send", "connect",
   "connect6", "connect_dual", "dht_start", "dht_stop", "dht_status",
   "dht_find", "dht_announce", "dht_discovery_status", "netutils",
   "netutils6", "test_ipv6", "dht_test", "file_send", "dir_send",
   "file_request", "dir_request", "transfer_list", "transfer_status",
   "transfer_pause", "transfer_resume", "transfer_cancel", "transfer_stats"]

/-- Outcome of one iteration of the command loop for a given input line. -/
inductive CliAction where
  | exitLoop
  | dispatched (cmd : String)
  | unknown (cmd : String)
  | skip
deriving DecidableEq

/-- Dispatch on the first token of a line: `quit`/`exit` break the loop
(`main.cpp:251`), recognized commands run their handler, anything else
prints the unknown-command message (`main.cpp:818-821`). -/
def handleCommand (cmd : String) : CliAction :=
  if cmd = "quit" ∨ cmd = "exit" then CliAction.exitLoop
  else if cmd ∈ knownCommands then CliAction.dispatched cmd
  else CliAction.unknown cmd

/-- One iteration body: empty input lines are skipped (`main.cpp:241-245`),
other lines are dispatched on their first token. -/
def handleLine (line : String) : CliAction :=
  if line = "" then CliAction.skip else handleCommand (firstTok line)

/-- The command loop (`main.cpp:238-826`): each step pairs the
`client.is_running()` value observed at the top of the loop with the line
read from stdin.  Returns the exit code together with the trace of actions
taken before the loop ended. -/
def commandLoop : List (Bool × String) → Nat × List CliAction
  | [] => (0, [])
  | (running, line) :: rest =>
    if running = false then (0, [])
    else
      match handleLine line with
      | CliAction.exitLoop => (0, [])
      | act =>
        let r := commandLoop rest
        (r.1, act :: r.2)

/-- Embedding of `main` (`main.cpp:63-836`): if `client.start()` fails the
program returns 1 before the command loop (`main.cpp:195-198`); otherwise
it runs the loop and returns 0 after the clean-shutdown code
(`main.cpp:828-836`). -/
def ratsMain (startOk : Bool) (steps : List (Bool × String)) : Nat × List CliAction :=
  if startOk = false then (1, []) else commandLoop steps

/-- File metadata fields of an incoming transfer request as used by the CLI
callback (`main.cpp:146-154`). -/
structure FileMetadata where
  filename : String
  file_size : Nat

/-- The `on_file_transfer_request` lambda registered by the CLI
(`main.cpp:146-154`): logs the request and returns `true` unconditionally. -/
def on_file_transfer_request (peer_id : String) (metadata : FileMetadata)
    (transfer_id : String) : Bool :=
  true

/-- The `on_file_request` lambda registered by the CLI (`main.cpp:168-175`):
logs the request and returns `true` unconditionally. -/
def on_file_request (peer_id : String) (file_path : String)
    (transfer_id : String) : Bool :=
  true

/-- A TCP connection attempt issued by the CLI. -/
structure ConnectAttempt where
  host : String
  port : Nat
  timeoutMs : Nat
deriving DecidableEq

/-- The `connect_dual` command handler calls
`create_tcp_client(host, port, 10000)` (`main.cpp:350`), i.e. a 10000 ms
connect timeout. -/
def cliConnectDual (host : String) (port : Nat) : ConnectAttempt :=
  { host := host, port := port, timeoutMs := 10000 }

/-! ## DHT XOR metric

Modelled from the spec: the DHT implementation (`dht.cpp`) is not among the
provided sources.  Spec section 3: "XOR distance between two ids is a
160-bit unsigned integer".
-/

/-- A 160-bit node identifier. -/
def NodeId : Type := Fin (2 ^ 160)

/-- Modelled from the spec: the Kademlia XOR distance between two node ids,
as a 160-bit unsigned integer. -/
def nodeDistance (a b : NodeId) : Nat := a.val ^^^ b.val

/-! ## Automatic rats-peer discovery loop

Modelled from the spec: the discovery loop implementation (`librats.cpp`)
is not among the provided sources.  Spec section 4.7: every 10 min announce
on `RATS_DISCOVERY_HASH`; every 5 min `get_peers` on that hash and enqueue
an outbound connect for each returned endpoint that is neither a live peer
nor on the 10-minute connect-blacklist.  Time is modelled in seconds.
-/

/-- Announce period of the discovery loop: 10 minutes. -/
def discAnnounceInterval : Nat := 600

/-- Search period of the discovery loop: 5 minutes. -/
def discSearchInterval : Nat := 300

/-- Lifetime of a connect-blacklist entry: 10 minutes. -/
def discBlacklistDuration : Nat := 600

/-- A peer endpoint returned by `get_peers`. -/
structure Endpoint where
  ip : String
  port : Nat
deriving DecidableEq

/-- Modelled from the spec: the observable state of the discovery loop.
`announceTimes` and `searchTimes` record (most recent first) the times at
which an announce or a search was performed. -/
structure DiscoveryState where
  lastAnnounce : Option Nat
  lastSearch : Option Nat
  blacklist : List (Endpoint × Nat)
  livePeers : List Endpoint
  connectQueue : List Endpoint
  announceTimes : List Nat
  searchTimes : List Nat

/-- Whether a periodic action with the given interval is due at `now`. -/
def dueAt (interval : Nat) (lastTime : Option Nat) (now : Nat) : Bool :=
  match lastTime with
  | none => true
  | some t => decide (t + interval ≤ now)

/-- Whether an endpoint is on the connect-blacklist at time `now`:
some failed attempt on it happened less than 10 minutes ago. -/
def blacklistedAt (bl : List (Endpoint × Nat)) (ep : Endpoint) (now : Nat) : Bool :=
  bl.any (fun e => decide (e.1 = ep) && decide (now < e.2 + discBlacklistDuration))

/-- Endpoints from a `get_peers` result that the loop will enqueue: those
that are not already live peers and not blacklisted. -/
def discoverCandidates (st : DiscoveryState) (now : Nat)
    (results : List Endpoint) : List Endpoint :=
  results.filter (fun ep =>
    !(decide (ep ∈ st.livePeers)) && !(blacklistedAt st.blacklist ep now))

/-- Modelled from the spec: one tick of the discovery loop at time `now`,
where `results` is the endpoint list the DHT search would return.  If 10
minutes have passed since the last announce, announce; if 5 minutes have
passed since the last search, search and enqueue an outbound connect for
each candidate. -/
def discoveryStep (now : Nat) (results : List Endpoint)
    (st : DiscoveryState) : DiscoveryState :=
  let st1 :=
    if dueAt discAnnounceInterval st.lastAnnounce now then
      { st with lastAnnounce := some now, announceTimes := now :: st.announceTimes }
    else st
  if dueAt discSearchInterval st1.lastSearch now then
    { st1 with lastSearch := some now,
               searchTimes := now :: st1.searchTimes,
               connectQueue := st1.connectQueue ++ discoverCandidates st1 now results }
  else st1

/-- The discovery state after ticking once per second from time 0 through
time `n`, starting from a fresh loop with no peers and an empty blacklist
(searches return no endpoints). -/
def discoveryRun : Nat → DiscoveryState
  | 0 => discoveryStep 0 [] ⟨none, none, [], [], [], [], []⟩
  | n + 1 => discoveryStep (n + 1) [] (discoveryRun n)

/-! ## Bencode codec

Modelled from the spec: the bencode implementation (`bencode.cpp`) is not
among the provided sources.  Spec section 4.1: byte-string
`<len>:<bytes>`, integer `i<decimal>e` (no leading zeros except `i0e`,
minus only non-zero), list `l…e`, dictionary `d…e` with keys strictly
ascending as byte strings on decode; decode is streaming-safe (returns the
remainder) and the top level rejects trailing garbage.  Byte streams are
`List Nat` (ASCII codes); the recursion-depth cap is not modelled.
-/

mutual

/-- A bencode value. -/
inductive Bencode where
  | str : List Nat → Bencode
  | int : Int → Bencode
  | list : BList → Bencode
  | dict : BDict → Bencode

/-- The elements of a bencode list. -/
inductive BList where
  | nil : BList
  | cons : Bencode → BList → BList

/-- The key/value entries of a bencode dictionary. -/
inductive BDict where
  | nil : BDict
  | cons : List Nat → Bencode → BDict → BDict

end

/-- Strict lexicographic order on byte strings (the `std::string` `<`
used to compare dictionary keys). -/
def lexLt : List Nat → List Nat → Bool
  | [], [] => false
  | [], _ :: _ => true
  | _ :: _, [] => false
  | a :: as, b :: bs =>
    if a < b then true else if b < a then false else lexLt as bs

/-- Whether `k` is strictly below the first key of a dictionary tail. -/
def firstKeyGt (k : List Nat) : BDict → Bool
  | BDict.nil => true
  | BDict.cons k2 _ _ => lexLt k k2

mutual

/-- A valid bencode value: every dictionary in it has strictly ascending
keys (hence no duplicate and no non-string keys). -/
def validB : Bencode → Bool
  | Bencode.str _ => true
  | Bencode.int _ => true
  | Bencode.list l => validL l
  | Bencode.dict d => validD d

/-- Validity of list elements. -/
def validL : BList → Bool
  | BList.nil => true
  | BList.cons x xs => validB x && validL xs

/-- Validity of dictionary entries: values valid and keys strictly
ascending. -/
def validD : BDict → Bool
  | BDict.nil => true
  | BDict.cons k v rest => validB v && firstKeyGt k rest && validD rest

end

/-- Decimal digits of `n`, most significant first (empty for 0); the fuel
argument makes the recursion structural. -/
def natDigitsAux : Nat → Nat → List Nat
  | 0, _ => []
  | fuel + 1, n => if n = 0 then [] else natDigitsAux fuel (n / 10) ++ [n % 10]

/-- ASCII decimal representation of a natural number, as emitted by the
encoder. -/
def natDigits (n : Nat) : List Nat :=
  if n = 0 then [48] else (natDigitsAux n n).map (· + 48)

/-- Encoding of a byte string: `<len>:<bytes>`. -/
def encStr (s : List Nat) : List Nat := natDigits s.length ++ 58 :: s

/-- ASCII decimal representation of an integer, minus sign included. -/
def intDigits (n : Int) : List Nat :=
  if n < 0 then 45 :: natDigits n.natAbs else natDigits n.toNat

mutual

/-- Modelled from the spec: the bencode encoder. -/
def encode : Bencode → List Nat
  | Bencode.str s => encStr s
  | Bencode.int n => 105 :: intDigits n ++ [101]
  | Bencode.list l => 108 :: encodeL l ++ [101]
  | Bencode.dict d => 100 :: encodeD d ++ [101]

/-- Encoder for list elements. -/
def encodeL : BList → List Nat
  | BList.nil => []
  | BList.cons x xs => encode x ++ encodeL xs

/-- Encoder for dictionary entries: each key as a byte string, then its
value. -/
def encodeD : BDict → List Nat
  | BDict.nil => []
  | BDict.cons k v rest => encStr k ++ encode v ++ encodeD rest

end

/-- ASCII decimal digit test on a byte. -/
def isDigitB (c : Nat) : Bool := 48 ≤ c && c ≤ 57

/-- Consumes leading decimal digits, accumulating their value. -/
def readDigits : List Nat → Nat → Nat × List Nat
  | [], acc => (acc, [])
  | c :: rest, acc =>
    if isDigitB c then readDigits rest (acc * 10 + (c - 48)) else (acc, c :: rest)

/-- Parses a non-empty run of decimal digits. -/
def parseNat (s : List Nat) : Option (Nat × List Nat) :=
  match s with
  | c :: _ => if isDigitB c then some (readDigits s 0) else none
  | [] => none

/-- The no-leading-zero rule for integer digit runs: a leading `0` must be
the whole run. -/
def okIntDigits (s : List Nat) : Bool :=
  match s with
  | [] => true
  | c :: rest =>
    if c = 48 then
      match rest with
      | [] => true
      | c2 :: _ => !isDigitB c2
    else true

/-- Parses a byte string `<len>:<bytes>`, returning the bytes and the
remainder. -/
def parseStr (s : List Nat) : Option (List Nat × List Nat) :=
  match parseNat s with
  | some (n, rest) =>
    match rest with
    | c :: rest2 =>
      if c = 58 then
        if n ≤ rest2.length then some (rest2.take n, rest2.drop n) else none
      else none
    | [] => none
  | none => none

/-- Parses the run of digits and the closing `e` of an integer body,
returning the decimal value and the remainder. -/
def parseIntDigitsE (s : List Nat) : Option (Nat × List Nat) :=
  if okIntDigits s then
    match parseNat s with
    | some (n, rest) =>
      match rest with
      | c :: rest2 => if c = 101 then some (n, rest2) else none
      | [] => none
    | none => none
  else none

/-- Parses the body of an integer (after the leading `i`), enforcing the
no-leading-zero rule and rejecting `-0`. -/
def decodeIntBody (s : List Nat) : Option (Bencode × List Nat) :=
  match s with
  | [] => none
  | c :: rest =>
    if c = 45 then
      match parseIntDigitsE rest with
      | some (n, rest2) =>
        if n = 0 then none else some (Bencode.int (-(n : Int)), rest2)
      | none => none
    else
      match parseIntDigitsE (c :: rest) with
      | some (n, rest2) => some (Bencode.int (n : Int), rest2)
      | none => none

/-- Whether a freshly parsed dictionary key is strictly above the previous
one (no constraint for the first key). -/
def prevOkKey : Option (List Nat) → List Nat → Bool
  | none, _ => true
  | some pk, k => lexLt pk k

/-- Whether a previous-key bound is compatible with a whole dictionary
tail. -/
def prevOkD : Option (List Nat) → BDict → Bool
  | none, _ => true
  | some pk, d => firstKeyGt pk d

/-- The most-significant-first digit list of a natural number, `[0]` for
zero (proof-side view of `natDigits`). -/
def msdList (n : Nat) : List Nat :=
  if n = 0 then [0] else (Nat.digits 10 n).reverse

mutual

/-- Modelled from the spec: the bencode decoder for one value.  The fuel
argument only makes the recursion structural; `decodeStream` supplies
enough fuel for any input. -/
def decodeVal : Nat → List Nat → Option (Bencode × List Nat)
  | 0, _ => none
  | fuel + 1, s =>
    match s with
    | [] => none
    | c :: rest =>
      if c = 105 then decodeIntBody rest
      else if c = 108 then
        match decodeSeq fuel rest with
        | some (l, rest2) => some (Bencode.list l, rest2)
        | none => none
      else if c = 100 then
        match decodeEntries fuel none rest with
        | some (d, rest2) => some (Bencode.dict d, rest2)
        | none => none
      else
        match parseStr (c :: rest) with
        | some (bytes, rest2) => some (Bencode.str bytes, rest2)
        | none => none

/-- Decoder for the elements of a list, up to the closing `e`. -/
def decodeSeq : Nat → List Nat → Option (BList × List Nat)
  | 0, _ => none
  | fuel + 1, s =>
    match s with
    | [] => none
    | c :: rest =>
      if c = 101 then some (BList.nil, rest)
      else
        match decodeVal fuel (c :: rest) with
        | some (x, rest2) =>
          match decodeSeq fuel rest2 with
          | some (l, rest3) => some (BList.cons x l, rest3)
          | none => none
        | none => none

/-- Decoder for dictionary entries up to the closing `e`, checking that
keys are byte strings in strictly ascending order (`prev` is the previous
key). -/
def decodeEntries : Nat → Option (List Nat) → List Nat → Option (BDict × List Nat)
  | 0, _, _ => none
  | fuel + 1, prev, s =>
    match s with
    | [] => none
    | c :: rest =>
      if c = 101 then some (BDict.nil, rest)
      else
        match parseStr (c :: rest) with
        | some (k, rest1) =>
          if prevOkKey prev k then
            match decodeVal fuel rest1 with
            | some (v, rest2) =>
              match decodeEntries fuel (some k) rest2 with
              | some (d, rest3) => some (BDict.cons k v d, rest3)
              | none => none
            | none => none
          else none
        | none => none

end

/-- Streaming-safe decode: parses one value off the front of the stream and
returns it with the unconsumed remainder. -/
def decodeStream (s : List Nat) : Option (Bencode × List Nat) :=
  decodeVal (s.length + 1) s

/-- Top-level decode: parses one value and rejects trailing garbage. -/
def decodeTop (s : List Nat) : Option Bencode :=
  match decodeStream s with
  | some (x, []) => some x
  | _ => none

/-! ## Concrete instances used to exercise the theorems -/

/-- A resolver environment whose dual-stack lookup lists the IPv4 address
before the IPv6 address. -/
def dualEnvCex : NetEnv :=
  { dnsV4 := fun _ => [],
    dnsDual := fun _ => [(AddrFamily.inet, "203.0.113.5"),
                         (AddrFamily.inet6, "2001:db8::7")] }

/-- A resolver environment whose dual-stack lookup lists the IPv6 address
first. -/
def dualEnvW : NetEnv :=
  { dnsV4 := fun _ => [],
    dnsDual := fun _ => [(AddrFamily.inet6, "2001:db8::7"),
                         (AddrFamily.inet, "203.0.113.5")] }

/-- An empty resolver environment. -/
def emptyEnv : NetEnv := { dnsV4 := fun _ => [], dnsDual := fun _ => [] }

/-- A sample endpoint returned by a discovery search. -/
def epW : Endpoint := ⟨"10.0.0.7", 4000⟩

/-- A sample search result: one fresh endpoint, one live peer, one
blacklisted endpoint. -/
def resultsW : List Endpoint := [epW, ⟨"10.0.0.8", 4000⟩, ⟨"10.0.0.9", 4000⟩]

/-- A sample discovery state with one live peer and one fresh blacklist
entry. -/
def stW : DiscoveryState :=
  ⟨none, none, [(⟨"10.0.0.9", 4000⟩, 0)], [⟨"10.0.0.8", 4000⟩], [], [], []⟩

/-- A sample valid bencode value exercising every constructor. -/
def bencW : Bencode :=
  Bencode.dict (BDict.cons [97] (Bencode.int (-42))
    (BDict.cons [98] (Bencode.list (BList.cons (Bencode.str [97, 98]) BList.nil))
      BDict.nil))

/-! ## Theorems -/

/-- Claim C10: `is_local_interface_address` returns `true` for
`"127.0.0.1"`, `"::1"` and `"localhost"` unconditionally, whatever the
enumerated local interface addresses are. -/
theorem localhost_always_local (addrs : List String) :
    is_local_interface_address addrs "127.0.0.1" = true ∧
    is_local_interface_address addrs "::1" = true ∧
    is_local_interface_address addrs "localhost" = true := by
  refine ⟨?_, ?_, ?_⟩ <;> simp [is_local_interface_address]

/-- Claim C8: IPv4 literals pass through resolution unchanged
(`resolve_hostname` returns the input, `resolve_all_addresses` returns the
singleton), the empty string resolves to the empty string, and
`to_ip_address` coincides with `resolve_hostname`. -/
theorem ipv4_literal_resolution (env : NetEnv) (s h : String) :
    (is_valid_ipv4 s = true → resolve_hostname env s = s) ∧
    (is_valid_ipv4 s = true → resolve_all_addresses env s = [s]) ∧
    resolve_hostname env "" = "" ∧
    to_ip_address env h = resolve_hostname env h := by
  refine ⟨?_, ?_, ?_, rfl⟩
  · intro hv
    by_cases he : s = ""
    · subst he; simp [resolve_hostname]
    · simp [resolve_hostname, he, hv]
  · intro hv
    simp [resolve_all_addresses, hv]
  · simp [resolve_hostname]

/-- Witness for `ipv4_literal_resolution` at the IPv4 literal
`"10.0.0.1"`. -/
theorem ipv4_literal_resolution_witness :
    is_valid_ipv4 "10.0.0.1" = true ∧
    resolve_hostname emptyEnv "10.0.0.1" = "10.0.0.1" ∧
    resolve_all_addresses emptyEnv "10.0.0.1" = ["10.0.0.1"] :=
  ⟨by decide,
   (ipv4_literal_resolution emptyEnv "10.0.0.1" "x").1 (by decide),
   (ipv4_literal_resolution emptyEnv "10.0.0.1" "x").2.1 (by decide)⟩

/-- Claim C9: `is_hostname` returns `false` on every IPv4 or IPv6 literal,
on the empty string, on strings longer than 253 characters, on strings
beginning or ending with a dot or a hyphen, and on strings containing two
consecutive dots. -/
theorem hostname_excludes_ip_literals (s : String) :
    ((is_valid_ipv4 s || is_valid_ipv6 s) = true → is_hostname s = false) ∧
    (s.data = [] → is_hostname s = false) ∧
    (253 < s.data.length → is_hostname s = false) ∧
    (s.data.head? = some '.' ∨ s.data.getLast? = some '.' →
       is_hostname s = false) ∧
    (s.data.head? = some '-' ∨ s.data.getLast? = some '-' →
       is_hostname s = false) ∧
    (containsDoubleDot s.data = true → is_hostname s = false) := by
  unfold is_hostname
  refine ⟨?_, ?_, ?_, ?_, ?_, ?_⟩ <;> intro h <;> split_ifs <;> simp_all

set_option maxRecDepth 4000 in
/-- Witness for `hostname_excludes_ip_literals` at concrete strings for
each rejection rule. -/
theorem hostname_excludes_ip_literals_witness :
    is_hostname "1.2.3.4" = false ∧
    is_hostname "" = false ∧
    is_hostname (String.mk (List.replicate 254 'a')) = false ∧
    is_hostname ".abc" = false ∧
    is_hostname "abc-" = false ∧
    is_hostname "a..b" = false :=
  ⟨(hostname_excludes_ip_literals "1.2.3.4").1 (by decide),
   (hostname_excludes_ip_literals "").2.1 (by decide),
   (hostname_excludes_ip_literals (String.mk (List.replicate 254 'a'))).2.2.1
     (by simp),
   (hostname_excludes_ip_literals ".abc").2.2.2.1 (Or.inl (by decide)),
   (hostname_excludes_ip_literals "abc-").2.2.2.2.1 (Or.inr (by decide)),
   (hostname_excludes_ip_literals "a..b").2.2.2.2.2 (by decide)⟩

/-- Claim C2: the CLI's registered acceptance callbacks return `true` for
every incoming file-transfer request and every incoming file request,
regardless of peer, filename or size. -/
theorem cli_auto_accepts_files (p1 p2 t1 t2 f : String) (m : FileMetadata) :
    on_file_transfer_request p1 m t1 = true ∧ on_file_request p2 f t2 = true :=
  ⟨rfl, rfl⟩

/-- The command loop itself always ends with exit code 0: `quit`/`exit`
break out, and the loop also ends when the client stops running. -/
theorem commandLoop_exit_zero (steps : List (Bool × String)) :
    (commandLoop steps).1 = 0 := by
  induction steps with
  | nil => rfl
  | cons s rest ih =>
    obtain ⟨running, line⟩ := s
    unfold commandLoop
    split
    · rfl
    · split <;> simp_all

/-- Claim C1: `main` returns exit code 1 when `client.start()` fails,
without running any command, and returns exit code 0 after a clean
shutdown triggered by `quit`/`exit` or by the client stopping. -/
theorem cli_exit_codes (steps rest : List (Bool × String)) (l : String) :
    ratsMain false steps = (1, []) ∧
    (ratsMain true steps).1 = 0 ∧
    ratsMain true ((true, "quit") :: rest) = (0, []) ∧
    ratsMain true ((true, "exit") :: rest) = (0, []) ∧
    ratsMain true ((false, l) :: rest) = (0, []) := by
  refine ⟨rfl, ?_, rfl, rfl, ?_⟩
  · simpa [ratsMain] using commandLoop_exit_zero steps
  · simp [ratsMain, commandLoop]

/-- Claim C4 (counterexample): the empty input line is skipped by the
command loop (`main.cpp:241-245`) and does not fall through to the
unknown-command message, so "any other input line" does not hold of the
empty line. -/
theorem cli_empty_line_skipped :
    handleLine "" = CliAction.skip ∧
    handleLine "" ≠ CliAction.unknown (firstTok "") := by
  refine ⟨rfl, by decide⟩

/-- Claim C4 (amended): the command loop dispatches `connect`, `list`,
`broadcast`, `send`, `dht_find`, `dht_announce`, `file_send` and
`transfer_list`; `quit` exits the loop; empty input lines are skipped;
every other (non-empty) line whose first token is not a recognized
command falls through to the unknown-command message. -/
theorem cli_dispatch_commands :
    handleCommand "connect" = CliAction.dispatched "connect" ∧
    handleCommand "list" = CliAction.dispatched "list" ∧
    handleCommand "broadcast" = CliAction.dispatched "broadcast" ∧
    handleCommand "send" = CliAction.dispatched "send" ∧
    handleCommand "dht_find" = CliAction.dispatched "dht_find" ∧
    handleCommand "dht_announce" = CliAction.dispatched "dht_announce" ∧
    handleCommand "file_send" = CliAction.dispatched "file_send" ∧
    handleCommand "transfer_list" = CliAction.dispatched "transfer_list" ∧
    handleCommand "quit" = CliAction.exitLoop ∧
    (∀ line : String, line ≠ "" →
       firstTok line ∉ "quit" :: "exit" :: knownCommands →
       handleLine line = CliAction.unknown (firstTok line)) := by
  refine ⟨by decide, by decide, by decide, by decide, by decide, by decide,
          by decide, by decide, by decide, ?_⟩
  intro line hne hnotin
  have h1 : ¬(firstTok line = "quit" ∨ firstTok line = "exit") := by
    intro h
    cases h <;> simp_all [List.mem_cons]
  have h2 : firstTok line ∉ knownCommands := by
    simp_all [List.mem_cons]
  simp [handleLine, hne, handleCommand, h1, h2]

/-- Witness for `cli_dispatch_commands` at the unrecognized line
`"fnord"`. -/
theorem cli_dispatch_commands_witness :
    ("fnord" : String) ≠ "" ∧
    firstTok "fnord" ∉ "quit" :: "exit" :: knownCommands ∧
    handleLine "fnord" = CliAction.unknown (firstTok "fnord") :=
  ⟨by decide, by decide,
   cli_dispatch_commands.2.2.2.2.2.2.2.2.2 "fnord" (by decide) (by decide)⟩

/-- Claim C7: the 160-bit XOR distance satisfies `d(a,a) = 0`, symmetry,
and the bitwise triangle relation `d(a,c) ≤ d(a,b) ^^^ d(b,c)`. -/
theorem xor_distance_metric (a b c : NodeId) :
    nodeDistance a a = 0 ∧
    nodeDistance a b = nodeDistance b a ∧
    nodeDistance a c ≤ nodeDistance a b ^^^ nodeDistance b c := by
  refine ⟨Nat.xor_self _, Nat.xor_comm _ _, ?_⟩
  have h : nodeDistance a b ^^^ nodeDistance b c = nodeDistance a c := by
    unfold nodeDistance
    calc a.val ^^^ b.val ^^^ (b.val ^^^ c.val)
        = a.val ^^^ (b.val ^^^ (b.val ^^^ c.val)) := Nat.xor_assoc _ _ _
      _ = a.val ^^^ (b.val ^^^ b.val ^^^ c.val) := by rw [Nat.xor_assoc]
      _ = a.val ^^^ c.val := by rw [Nat.xor_self, Nat.zero_xor]
  exact le_of_eq h.symm

/-- Claim C3 (counterexample): with a resolver whose dual-stack result
lists the IPv4 address first, `resolve_all_addresses_dual` returns the
IPv4 address before the IPv6 address, so the dual-stack resolution does
not always place the IPv6 address first. -/
theorem dual_resolution_not_ipv6_first :
    resolve_all_addresses_dual dualEnvCex "example.com"
        = ["203.0.113.5", "2001:db8::7"] ∧
    is_valid_ipv4 "203.0.113.5" = true ∧
    is_valid_ipv6 "2001:db8::7" = true ∧
    ¬ (List.indexOf "2001:db8::7"
          (resolve_all_addresses_dual dualEnvCex "example.com")
        < List.indexOf "203.0.113.5"
          (resolve_all_addresses_dual dualEnvCex "example.com")) := by
  refine ⟨by decide, by decide, by decide, by decide⟩

/-- Claim C3 (amended): dual-stack resolution passes IP literals through
unchanged and otherwise keeps the resolver's order, so the IPv6 address
comes first exactly when the resolver lists it first; the CLI's
`connect_dual` command uses a 10000 ms (10 s) connect timeout. -/
theorem dual_resolution_order_and_timeout (env : NetEnv) (h ip6 : String)
    (p : Nat) (rest : List (AddrFamily × String)) :
    (is_valid_ipv4 h = true → resolve_all_addresses_dual env h = [h]) ∧
    (is_valid_ipv4 h = false → is_valid_ipv6 h = true →
       resolve_all_addresses_dual env h = [h]) ∧
    (is_valid_ipv4 h = false → is_valid_ipv6 h = false →
       env.dnsDual h = (AddrFamily.inet6, ip6) :: rest →
       (resolve_all_addresses_dual env h).head? = some ip6) ∧
    (cliConnectDual h p).timeoutMs = 10000 := by
  refine ⟨?_, ?_, ?_, rfl⟩
  · intro h4
    simp [resolve_all_addresses_dual, h4]
  · intro h4 h6
    simp [resolve_all_addresses_dual, h4, h6]
  · intro h4 h6 hdns
    simp [resolve_all_addresses_dual, h4, h6, hdns]

/-- How one discovery tick with an empty search result changes the four
periodic-bookkeeping fields. -/
theorem discoveryStep_empty_fields (now : Nat) (st : DiscoveryState) :
    ((discoveryStep now [] st).lastAnnounce
        = if dueAt discAnnounceInterval st.lastAnnounce now then some now
          else st.lastAnnounce) ∧
    ((discoveryStep now [] st).announceTimes
        = if dueAt discAnnounceInterval st.lastAnnounce now then
            now :: st.announceTimes
          else st.announceTimes) ∧
    ((discoveryStep now [] st).lastSearch
        = if dueAt discSearchInterval st.lastSearch now then some now
          else st.lastSearch) ∧
    ((discoveryStep now [] st).searchTimes
        = if dueAt discSearchInterval st.lastSearch now then
            now :: st.searchTimes
          else st.searchTimes) := by
  unfold discoveryStep
  split_ifs <;> simp_all [discoverCandidates]

/-- In a run ticking once per second from time 0, the loop has announced
exactly at the multiples of 10 minutes and searched exactly at the
multiples of 5 minutes. -/
theorem discoveryRun_fields (n : Nat) :
    (discoveryRun n).lastAnnounce
        = some (discAnnounceInterval * (n / discAnnounceInterval)) ∧
    (discoveryRun n).announceTimes
        = ((List.range (n + 1)).filter
            (fun t => t % discAnnounceInterval = 0)).reverse ∧
    (discoveryRun n).lastSearch
        = some (discSearchInterval * (n / discSearchInterval)) ∧
    (discoveryRun n).searchTimes
        = ((List.range (n + 1)).filter
            (fun t => t % discSearchInterval = 0)).reverse := by
  induction n with
  | zero => decide
  | succ n ih =>
    obtain ⟨ihA, ihAT, ihS, ihST⟩ := ih
    obtain ⟨hA, hAT, hS, hST⟩ :=
      discoveryStep_empty_fields (n + 1) (discoveryRun n)
    have hrun : discoveryRun (n + 1) = discoveryStep (n + 1) [] (discoveryRun n) := rfl
    rw [hrun]
    rw [hA, hAT, hS, hST, ihA, ihAT, ihS, ihST]
    simp only [discAnnounceInterval, discSearchInterval] at *
    have hrange : List.range (n + 1 + 1) = List.range (n + 1) ++ [n + 1] :=
      List.range_succ (n + 1)
    refine ⟨?_, ?_, ?_, ?_⟩
    · unfold dueAt
      by_cases h1 : 600 * (n / 600) + 600 ≤ n + 1
      · simp [h1]
        omega
      · simp [h1]
        omega
    · unfold dueAt
      rw [hrange, List.filter_append, List.reverse_append]
      by_cases h1 : 600 * (n / 600) + 600 ≤ n + 1
      · have hm : (n + 1) % 600 = 0 := by omega
        simp [h1, hm]
      · have hm : ¬ (n + 1) % 600 = 0 := by omega
        simp [h1, hm]
    · unfold dueAt
      by_cases h1 : 300 * (n / 300) + 300 ≤ n + 1
      · simp [h1]
        omega
      · simp [h1]
        omega
    · unfold dueAt
      rw [hrange, List.filter_append, List.reverse_append]
      by_cases h1 : 300 * (n / 300) + 300 ≤ n + 1
      · have hm : (n + 1) % 300 = 0 := by omega
        simp [h1, hm]
      · have hm : ¬ (n + 1) % 300 = 0 := by omega
        simp [h1, hm]

/-- Claim C6: while the discovery loop runs it announces on the discovery
hash every 10 minutes and searches every 5 minutes; whenever a search is
due, the tick enqueues an outbound connect for each returned endpoint
that is not a live peer and not on the connect-blacklist; and conversely
every endpoint a tick adds to the connect queue is such a returned
endpoint (and the tick did perform a search). -/
theorem discovery_periodic_and_filtered (n now : Nat)
    (results : List Endpoint) (st : DiscoveryState) (ep : Endpoint) :
    (discoveryRun n).announceTimes
        = ((List.range (n + 1)).filter
            (fun t => t % discAnnounceInterval = 0)).reverse ∧
    (discoveryRun n).searchTimes
        = ((List.range (n + 1)).filter
            (fun t => t % discSearchInterval = 0)).reverse ∧
    (dueAt discSearchInterval st.lastSearch now = true →
       ep ∈ results → ep ∉ st.livePeers →
       blacklistedAt st.blacklist ep now = false →
       ep ∈ (discoveryStep now results st).connectQueue) ∧
    (ep ∈ (discoveryStep now results st).connectQueue →
       ep ∉ st.connectQueue →
       dueAt discSearchInterval st.lastSearch now = true ∧
       ep ∈ results ∧ ep ∉ st.livePeers ∧
       blacklistedAt st.blacklist ep now = false) := by
  refine ⟨(discoveryRun_fields n).2.1, (discoveryRun_fields n).2.2.2, ?_, ?_⟩
  · intro hdue hres hlive hbl
    unfold discoveryStep
    cases hA : dueAt discAnnounceInterval st.lastAnnounce now <;>
      simp [hA, hdue, discoverCandidates, List.mem_append, List.mem_filter] <;>
      exact Or.inr ⟨hres, hlive, hbl⟩
  · intro hin hnotin
    unfold discoveryStep at hin
    cases hA : dueAt discAnnounceInterval st.lastAnnounce now <;>
      cases hSr : dueAt discSearchInterval st.lastSearch now <;>
        simp [hA, hSr, discoverCandidates] at hin
    · exact absurd hin hnotin
    · rcases hin with hin | ⟨hres, hlive, hbl⟩
      · exact absurd hin hnotin
      · exact ⟨rfl, hres, hlive, hbl⟩
    · exact absurd hin hnotin
    · rcases hin with hin | ⟨hres, hlive, hbl⟩
      · exact absurd hin hnotin
      · exact ⟨rfl, hres, hlive, hbl⟩

/-- Witness for `discovery_periodic_and_filtered`: a concrete tick whose
search returns one fresh endpoint, one live peer and one blacklisted
endpoint; the fresh endpoint is enqueued (forward direction) and is the
only new queue entry (converse direction). -/
theorem discovery_periodic_and_filtered_witness :
    (dueAt discSearchInterval stW.lastSearch 100 = true ∧
     epW ∈ resultsW ∧ epW ∉ stW.livePeers ∧
     blacklistedAt stW.blacklist epW 100 = false) ∧
    epW ∈ (discoveryStep 100 resultsW stW).connectQueue ∧
    epW ∉ stW.connectQueue ∧
    (dueAt discSearchInterval stW.lastSearch 100 = true ∧
     epW ∈ resultsW ∧ epW ∉ stW.livePeers ∧
     blacklistedAt stW.blacklist epW 100 = false) :=
  ⟨⟨by decide, by decide, by decide, by decide⟩,
   (discovery_periodic_and_filtered 0 100 resultsW stW epW).2.2.1
     (by decide) (by decide) (by decide) (by decide),
   by decide,
   (discovery_periodic_and_filtered 0 100 resultsW stW epW).2.2.2
     (by decide) (by decide)⟩

/-- `natDigitsAux` with enough fuel computes the reversed base-10
digits. -/
theorem natDigitsAux_eq (fuel : Nat) : ∀ n, n ≤ fuel →
    natDigitsAux fuel n = (Nat.digits 10 n).reverse := by
  induction fuel with
  | zero =>
    intro n hn
    have h0 : n = 0 := by omega
    subst h0
    simp [natDigitsAux]
  | succ fuel ih =>
    intro n hn
    by_cases h0 : n = 0
    · subst h0
      simp [natDigitsAux]
    · unfold natDigitsAux
      rw [if_neg h0, ih (n / 10) (by omega),
        Nat.digits_def' (by norm_num : (1 : ℕ) < 10) (Nat.pos_of_ne_zero h0),
        List.reverse_cons]

/-- Every entry of `msdList n` is a decimal digit. -/
theorem msdList_lt (n : Nat) : ∀ d ∈ msdList n, d < 10 := by
  intro d hd
  unfold msdList at hd
  by_cases h0 : n = 0
  · rw [if_pos h0] at hd
    simp at hd
    omega
  · rw [if_neg h0, List.mem_reverse] at hd
    exact Nat.digits_lt_base (by norm_num) hd

/-- `msdList n` reversed is the little-endian digit list of `n`. -/
theorem msdList_ofDigits (n : Nat) : Nat.ofDigits 10 (msdList n).reverse = n := by
  unfold msdList
  by_cases h0 : n = 0
  · rw [if_pos h0]
    subst h0
    simp [Nat.ofDigits]
  · rw [if_neg h0, List.reverse_reverse, Nat.ofDigits_digits]

/-- `msdList` is never empty. -/
theorem msdList_ne_nil (n : Nat) : msdList n ≠ [] := by
  unfold msdList
  by_cases h0 : n = 0
  · simp [h0]
  · rw [if_neg h0]
    simp [Nat.digits_ne_nil_iff_ne_zero, h0]

/-- `natDigits` is the ASCII rendering of `msdList`. -/
theorem natDigits_eq_map (n : Nat) : natDigits n = (msdList n).map (· + 48) := by
  unfold natDigits msdList
  by_cases h0 : n = 0
  · simp [h0]
  · rw [if_neg h0, if_neg h0, natDigitsAux_eq n n le_rfl]

/-- The decimal rendering of a natural number starts with an ASCII digit,
which is `0` only for the number zero. -/
theorem natDigits_head (n : Nat) :
    ∃ c cs, natDigits n = c :: cs ∧ 48 ≤ c ∧ c ≤ 57 ∧ (n ≠ 0 → c ≠ 48) := by
  by_cases h0 : n = 0
  · subst h0
    exact ⟨48, [], rfl, by omega, by omega, fun h => absurd rfl h⟩
  · obtain ⟨d, ds, hds⟩ := List.exists_cons_of_ne_nil (msdList_ne_nil n)
    have hd10 : d < 10 := msdList_lt n d (by rw [hds]; exact List.mem_cons_self _ _)
    have hdne : d ≠ 0 := by
      have hds2 : (Nat.digits 10 n).reverse = d :: ds := by
        rw [← hds]
        unfold msdList
        rw [if_neg h0]
      have h2 : Nat.digits 10 n ≠ [] := Nat.digits_ne_nil_iff_ne_zero.mpr h0
      have h1 : (Nat.digits 10 n).getLast? = some d := by
        rw [← List.head?_reverse, hds2]
        rfl
      rw [List.getLast?_eq_getLast _ h2] at h1
      injection h1 with h1
      have h3 := Nat.getLast_digit_ne_zero 10 h0
      rw [h1] at h3
      exact h3
    refine ⟨d + 48, ds.map (· + 48), ?_, by omega, by omega, fun _ => by omega⟩
    rw [natDigits_eq_map, hds]
    rfl

/-- Reading the ASCII digits of a most-significant-first digit list stops
at the first non-digit and accumulates the decimal value. -/
theorem readDigits_msd (ds : List Nat) : ∀ (acc c : Nat) (rest : List Nat),
    (∀ d ∈ ds, d < 10) → isDigitB c = false →
    readDigits (ds.map (· + 48) ++ c :: rest) acc
      = (acc * 10 ^ ds.length + Nat.ofDigits 10 ds.reverse, c :: rest) := by
  induction ds with
  | nil =>
    intro acc c rest _ hc
    simp [readDigits, hc, Nat.ofDigits]
  | cons d ds ih =>
    intro acc c rest hall hc
    have hd : d < 10 := hall d (List.mem_cons_self _ _)
    have hdig : isDigitB (d + 48) = true := by
      simp only [isDigitB, Bool.and_eq_true, decide_eq_true_eq]
      omega
    simp only [List.map_cons, List.cons_append, readDigits, hdig, if_true,
      List.append_eq]
    rw [ih (acc * 10 + (d + 48 - 48)) c rest
         (fun x hx => hall x (List.mem_cons_of_mem _ hx)) hc]
    have h48 : d + 48 - 48 = d := by omega
    rw [h48, List.reverse_cons, Nat.ofDigits_append]
    simp only [Nat.ofDigits_cons, Nat.ofDigits_nil, List.length_cons,
      List.length_reverse, Prod.mk.injEq]
    exact ⟨by ring, trivial⟩

/-- `parseNat` reads back exactly the decimal rendering of `n` when the
next byte is not a digit. -/
theorem parseNat_natDigits (n c : Nat) (rest : List Nat)
    (hc : isDigitB c = false) :
    parseNat (natDigits n ++ c :: rest) = some (n, c :: rest) := by
  obtain ⟨c0, cs0, hshape, h48, h57, _⟩ := natDigits_head n
  have hdig : isDigitB c0 = true := by
    simp only [isDigitB, Bool.and_eq_true, decide_eq_true_eq]
    omega
  rw [hshape, List.cons_append]
  unfold parseNat
  simp only [hdig, if_true]
  rw [← List.cons_append, ← hshape, natDigits_eq_map,
    readDigits_msd (msdList n) 0 c rest (msdList_lt n) hc]
  rw [msdList_ofDigits]
  simp

/-- `parseStr` reads back exactly the encoding of a byte string and
returns the remainder. -/
theorem parseStr_encStr (s rest : List Nat) :
    parseStr (encStr s ++ rest) = some (s, rest) := by
  unfold encStr
  rw [List.append_assoc, List.cons_append]
  unfold parseStr
  rw [parseNat_natDigits s.length 58 (s ++ rest) (by decide)]
  have hle : s.length ≤ (s ++ rest).length := by simp
  simp [hle, List.take_left, List.drop_left]

/-- The decimal rendering of `n` followed by a non-digit passes the
no-leading-zero rule. -/
theorem okIntDigits_natDigits (n c2 : Nat) (rest : List Nat)
    (hc2 : isDigitB c2 = false) :
    okIntDigits (natDigits n ++ c2 :: rest) = true := by
  obtain ⟨c0, cs0, hshape, h48, h57, hne0⟩ := natDigits_head n
  rw [hshape, List.cons_append]
  by_cases h0 : c0 = 48
  · by_cases hn0 : n = 0
    · subst hn0
      have hnil : c0 :: cs0 = [48] := by rw [← hshape]; rfl
      have hcs : cs0 = [] := by
        injection hnil with h1 h2
      subst hcs
      subst h0
      simp [okIntDigits, hc2]
    · exact absurd h0 (hne0 hn0)
  · simp [okIntDigits, h0]

/-- `parseIntDigitsE` reads back the decimal rendering of `n` followed by
the closing `e`. -/
theorem parseIntDigitsE_natDigits (n : Nat) (rest : List Nat) :
    parseIntDigitsE (natDigits n ++ 101 :: rest) = some (n, rest) := by
  unfold parseIntDigitsE
  rw [if_pos (okIntDigits_natDigits n 101 rest (by decide))]
  rw [parseNat_natDigits n 101 rest (by decide)]
  simp

/-- `decodeIntBody` reads back exactly the signed decimal rendering of an
integer followed by `e`. -/
theorem decodeIntBody_intDigits (n : Int) (rest : List Nat) :
    decodeIntBody (intDigits n ++ 101 :: rest) = some (Bencode.int n, rest) := by
  unfold intDigits
  by_cases hneg : n < 0
  · rw [if_pos hneg, List.cons_append]
    have habs : n.natAbs ≠ 0 := by omega
    simp [decodeIntBody, parseIntDigitsE_natDigits, habs]
    rw [abs_of_neg hneg, neg_neg]
  · rw [if_neg hneg]
    obtain ⟨c0, cs0, hshape, h48, h57, _⟩ := natDigits_head n.toNat
    have hcast : ((n.toNat : Nat) : Int) = n := by omega
    have hc45 : ¬ c0 = 45 := by omega
    rw [hshape, List.cons_append]
    simp only [decodeIntBody, hc45, if_false]
    rw [← List.cons_append, ← hshape]
    simp [parseIntDigitsE_natDigits, hcast]

/-- Every encoded value is non-empty and starts with a byte other than
the terminator `e`. -/
theorem encode_head_ne_e (x : Bencode) :
    ∃ c cs, encode x = c :: cs ∧ c ≠ 101 := by
  cases x with
  | str s =>
    obtain ⟨c0, cs0, hshape, h48, h57, _⟩ := natDigits_head s.length
    refine ⟨c0, cs0 ++ 58 :: s, ?_, by omega⟩
    show encStr s = _
    unfold encStr
    rw [hshape, List.cons_append]
  | int n => exact ⟨105, intDigits n ++ [101], by simp [encode], by omega⟩
  | list l => exact ⟨108, encodeL l ++ [101], by simp [encode], by omega⟩
  | dict d => exact ⟨100, encodeD d ++ [101], by simp [encode], by omega⟩

/-- Encoded values are non-empty. -/
theorem encode_length_pos (x : Bencode) : 1 ≤ (encode x).length := by
  obtain ⟨c, cs, h, _⟩ := encode_head_ne_e x
  rw [h]
  simp

/-- Encoded byte strings take at least two bytes. -/
theorem encStr_length (s : List Nat) : 2 ≤ (encStr s).length := by
  obtain ⟨c0, cs0, hshape, _, _, _⟩ := natDigits_head s.length
  unfold encStr
  rw [hshape, List.cons_append]
  simp only [List.length_cons, List.length_append]
  omega

/-- Completeness of the decoder: with enough fuel, decoding an encoded
valid value (with anything appended) succeeds and returns the remainder. -/
theorem decode_complete : ∀ fuel : Nat,
    (∀ x rest, validB x = true → (encode x).length < fuel →
       decodeVal fuel (encode x ++ rest) = some (x, rest)) ∧
    (∀ l rest, validL l = true → (encodeL l).length + 1 < fuel →
       decodeSeq fuel (encodeL l ++ 101 :: rest) = some (l, rest)) ∧
    (∀ d prev rest, validD d = true → prevOkD prev d = true →
       (encodeD d).length + 1 < fuel →
       decodeEntries fuel prev (encodeD d ++ 101 :: rest) = some (d, rest)) := by
  intro fuel
  induction fuel with
  | zero =>
    refine ⟨?_, ?_, ?_⟩
    · intro x rest _ hlen
      omega
    · intro l rest _ hlen
      omega
    · intro d prev rest _ _ hlen
      omega
  | succ fuel ih =>
    obtain ⟨ih1, ih2, ih3⟩ := ih
    refine ⟨?_, ?_, ?_⟩
    · intro x rest hv hlen
      cases x with
      | str s =>
        obtain ⟨c0, cs0, hshape, h48, h57, _⟩ := natDigits_head s.length
        have hstream : encode (Bencode.str s) ++ rest
            = c0 :: (cs0 ++ (58 :: (s ++ rest))) := by
          show encStr s ++ rest = _
          unfold encStr
          rw [hshape]
          simp [List.append_assoc]
        have hback : c0 :: (cs0 ++ (58 :: (s ++ rest))) = encStr s ++ rest := by
          rw [← hstream, encode]
        have hps : parseStr (c0 :: (cs0 ++ (58 :: (s ++ rest)))) = some (s, rest) := by
          rw [hback, parseStr_encStr]
        have h105 : ¬ c0 = 105 := by omega
        have h108 : ¬ c0 = 108 := by omega
        have h100 : ¬ c0 = 100 := by omega
        rw [hstream]
        simp [decodeVal, h105, h108, h100, hps]
      | int n =>
        have hstream : encode (Bencode.int n) ++ rest
            = 105 :: (intDigits n ++ 101 :: rest) := by
          simp [encode, List.append_assoc]
        rw [hstream]
        simp [decodeVal, decodeIntBody_intDigits]
      | list l =>
        have hv2 : validL l = true := by simpa [validB] using hv
        have hlen2 : (encodeL l).length + 1 < fuel := by
          have he : (encode (Bencode.list l)).length = (encodeL l).length + 2 := by
            simp [encode]
          omega
        have hstream : encode (Bencode.list l) ++ rest
            = 108 :: (encodeL l ++ 101 :: rest) := by
          simp [encode, List.append_assoc]
        rw [hstream]
        simp [decodeVal, ih2 l rest hv2 hlen2]
      | dict d =>
        have hv2 : validD d = true := by simpa [validB] using hv
        have hlen2 : (encodeD d).length + 1 < fuel := by
          have he : (encode (Bencode.dict d)).length = (encodeD d).length + 2 := by
            simp [encode]
          omega
        have hstream : encode (Bencode.dict d) ++ rest
            = 100 :: (encodeD d ++ 101 :: rest) := by
          simp [encode, List.append_assoc]
        rw [hstream]
        simp [decodeVal, ih3 d none rest hv2 rfl hlen2]
    · intro l rest hv hlen
      cases l with
      | nil =>
        show decodeSeq (fuel + 1) (([] : List Nat) ++ 101 :: rest) = _
        rw [List.nil_append]
        simp [decodeSeq]
      | cons x xs =>
        have hvx : validB x = true ∧ validL xs = true := by
          simpa [validL, Bool.and_eq_true] using hv
        obtain ⟨c0, cs0, hcx, hc101⟩ := encode_head_ne_e x
        have hlx : 1 ≤ (encode x).length := encode_length_pos x
        have hlele : (encodeL (BList.cons x xs)).length
            = (encode x).length + (encodeL xs).length := by
          show (encode x ++ encodeL xs).length = _
          simp
        have hlen1 : (encode x).length < fuel := by omega
        have hlen2 : (encodeL xs).length + 1 < fuel := by omega
        have hstream : encodeL (BList.cons x xs) ++ 101 :: rest
            = c0 :: (cs0 ++ (encodeL xs ++ 101 :: rest)) := by
          show (encode x ++ encodeL xs) ++ 101 :: rest = _
          rw [hcx]
          simp [List.append_assoc]
        have hback : c0 :: (cs0 ++ (encodeL xs ++ 101 :: rest))
            = encode x ++ (encodeL xs ++ 101 :: rest) := by
          rw [hcx]
          simp
        have hval : decodeVal fuel (c0 :: (cs0 ++ (encodeL xs ++ 101 :: rest)))
            = some (x, encodeL xs ++ 101 :: rest) := by
          rw [hback]
          exact ih1 x (encodeL xs ++ 101 :: rest) hvx.1 hlen1
        rw [hstream]
        simp [decodeSeq, hc101, hval, ih2 xs rest hvx.2 hlen2]
    · intro d prev rest hv hprev hlen
      cases d with
      | nil =>
        show decodeEntries (fuel + 1) prev (([] : List Nat) ++ 101 :: rest) = _
        rw [List.nil_append]
        simp [decodeEntries]
      | cons k v d2 =>
        have hv3 : validB v = true ∧ firstKeyGt k d2 = true ∧ validD d2 = true := by
          simpa [validD, Bool.and_eq_true, and_assoc] using hv
        have hprevK : prevOkKey prev k = true := by
          cases prev with
          | none => rfl
          | some pk => simpa [prevOkD, firstKeyGt, prevOkKey] using hprev
        obtain ⟨c0, cs0, hshape, h48, h57, _⟩ := natDigits_head k.length
        have hlk : 2 ≤ (encStr k).length := encStr_length k
        have hlv : 1 ≤ (encode v).length := encode_length_pos v
        have hled : (encodeD (BDict.cons k v d2)).length
            = (encStr k).length + (encode v).length + (encodeD d2).length := by
          show (encStr k ++ encode v ++ encodeD d2).length = _
          simp only [List.length_append]
        have hlenv : (encode v).length < fuel := by omega
        have hlend : (encodeD d2).length + 1 < fuel := by omega
        have hstream : encodeD (BDict.cons k v d2) ++ 101 :: rest
            = c0 :: (cs0 ++ (58 :: (k ++ (encode v ++ (encodeD d2 ++ 101 :: rest))))) := by
          show (encStr k ++ encode v ++ encodeD d2) ++ 101 :: rest = _
          unfold encStr
          rw [hshape]
          simp [List.append_assoc]
        have hback : c0 :: (cs0 ++ (58 :: (k ++ (encode v ++ (encodeD d2 ++ 101 :: rest)))))
            = encStr k ++ (encode v ++ (encodeD d2 ++ 101 :: rest)) := by
          unfold encStr
          rw [hshape]
          simp [List.append_assoc]
        have hps : parseStr (c0 :: (cs0 ++ (58 :: (k ++ (encode v ++ (encodeD d2 ++ 101 :: rest))))))
            = some (k, encode v ++ (encodeD d2 ++ 101 :: rest)) := by
          rw [hback, parseStr_encStr]
        have hc101 : ¬ c0 = 101 := by omega
        rw [hstream]
        simp [decodeEntries, hc101, hps, hprevK,
          ih1 v (encodeD d2 ++ 101 :: rest) hv3.1 hlenv,
          ih3 d2 (some k) rest hv3.2.2 (by simpa [prevOkD] using hv3.2.1) hlend]

/-- A successful `decodeIntBody` always yields an integer value. -/
theorem decodeIntBody_shape (s : List Nat) (x : Bencode) (rem : List Nat)
    (h : decodeIntBody s = some (x, rem)) : ∃ m : Int, x = Bencode.int m := by
  cases s with
  | nil => simp [decodeIntBody] at h
  | cons c rest =>
    simp only [decodeIntBody] at h
    by_cases hc : c = 45
    · rw [if_pos hc] at h
      cases hp : parseIntDigitsE rest with
      | none => rw [hp] at h; simp at h
      | some r =>
        obtain ⟨n, r2⟩ := r
        rw [hp] at h
        simp only [] at h
        by_cases h0 : n = 0
        · simp [h0] at h
        · rw [if_neg h0] at h
          simp only [Option.some.injEq, Prod.mk.injEq] at h
          exact ⟨-(n : Int), h.1.symm⟩
    · rw [if_neg hc] at h
      cases hp : parseIntDigitsE (c :: rest) with
      | none => rw [hp] at h; simp at h
      | some r =>
        obtain ⟨n, r2⟩ := r
        rw [hp] at h
        simp only [Option.some.injEq, Prod.mk.injEq] at h
        exact ⟨(n : Int), h.1.symm⟩

/-- Soundness of the decoder: every successfully decoded value is valid —
its dictionaries have strictly ascending, duplicate-free, string keys. -/
theorem decode_sound : ∀ fuel : Nat,
    (∀ s x rem, decodeVal fuel s = some (x, rem) → validB x = true) ∧
    (∀ s l rem, decodeSeq fuel s = some (l, rem) → validL l = true) ∧
    (∀ prev s d rem, decodeEntries fuel prev s = some (d, rem) →
       validD d = true ∧ prevOkD prev d = true) := by
  intro fuel
  induction fuel with
  | zero =>
    refine ⟨?_, ?_, ?_⟩
    · intro s x rem h
      simp [decodeVal] at h
    · intro s l rem h
      simp [decodeSeq] at h
    · intro prev s d rem h
      simp [decodeEntries] at h
  | succ fuel ih =>
    obtain ⟨ih1, ih2, ih3⟩ := ih
    refine ⟨?_, ?_, ?_⟩
    · intro s x rem h
      cases s with
      | nil => simp [decodeVal] at h
      | cons c rest =>
        simp only [decodeVal] at h
        by_cases h105 : c = 105
        · rw [if_pos h105] at h
          obtain ⟨m, hm⟩ := decodeIntBody_shape rest x rem h
          rw [hm]
          rfl
        · rw [if_neg h105] at h
          by_cases h108 : c = 108
          · rw [if_pos h108] at h
            cases hseq : decodeSeq fuel rest with
            | none => rw [hseq] at h; simp at h
            | some r =>
              obtain ⟨l0, r2⟩ := r
              rw [hseq] at h
              simp only [Option.some.injEq, Prod.mk.injEq] at h
              rw [← h.1]
              simpa [validB] using ih2 rest l0 r2 hseq
          · rw [if_neg h108] at h
            by_cases h100 : c = 100
            · rw [if_pos h100] at h
              cases hent : decodeEntries fuel none rest with
              | none => rw [hent] at h; simp at h
              | some r =>
                obtain ⟨d0, r2⟩ := r
                rw [hent] at h
                simp only [Option.some.injEq, Prod.mk.injEq] at h
                rw [← h.1]
                simpa [validB] using (ih3 none rest d0 r2 hent).1
            · rw [if_neg h100] at h
              cases hps : parseStr (c :: rest) with
              | none => rw [hps] at h; simp at h
              | some r =>
                obtain ⟨b, r2⟩ := r
                rw [hps] at h
                simp only [Option.some.injEq, Prod.mk.injEq] at h
                rw [← h.1]
                rfl
    · intro s l rem h
      cases s with
      | nil => simp [decodeSeq] at h
      | cons c rest =>
        simp only [decodeSeq] at h
        by_cases h101 : c = 101
        · rw [if_pos h101] at h
          simp only [Option.some.injEq, Prod.mk.injEq] at h
          rw [← h.1]
          rfl
        · rw [if_neg h101] at h
          cases hval : decodeVal fuel (c :: rest) with
          | none => rw [hval] at h; simp at h
          | some r =>
            obtain ⟨x0, r2⟩ := r
            rw [hval] at h
            simp only [] at h
            cases hseq : decodeSeq fuel r2 with
            | none => rw [hseq] at h; simp at h
            | some r3 =>
              obtain ⟨l0, r4⟩ := r3
              rw [hseq] at h
              simp only [Option.some.injEq, Prod.mk.injEq] at h
              rw [← h.1]
              simp only [validL, Bool.and_eq_true]
              exact ⟨ih1 (c :: rest) x0 r2 hval, ih2 r2 l0 r4 hseq⟩
    · intro prev s d rem h
      cases s with
      | nil => simp [decodeEntries] at h
      | cons c rest =>
        simp only [decodeEntries] at h
        by_cases h101 : c = 101
        · rw [if_pos h101] at h
          simp only [Option.some.injEq, Prod.mk.injEq] at h
          rw [← h.1]
          refine ⟨rfl, ?_⟩
          cases prev <;> rfl
        · rw [if_neg h101] at h
          cases hps : parseStr (c :: rest) with
          | none => rw [hps] at h; simp at h
          | some r =>
            obtain ⟨k, r1⟩ := r
            rw [hps] at h
            simp only [] at h
            by_cases hpk : prevOkKey prev k = true
            · rw [if_pos hpk] at h
              cases hval : decodeVal fuel r1 with
              | none => rw [hval] at h; simp at h
              | some r2p =>
                obtain ⟨v, r2⟩ := r2p
                rw [hval] at h
                simp only [] at h
                cases hent : decodeEntries fuel (some k) r2 with
                | none => rw [hent] at h; simp at h
                | some r3p =>
                  obtain ⟨d2, r3⟩ := r3p
                  rw [hent] at h
                  simp only [Option.some.injEq, Prod.mk.injEq] at h
                  rw [← h.1]
                  obtain ⟨hd2, hpd2⟩ := ih3 (some k) r2 d2 r3 hent
                  refine ⟨?_, ?_⟩
                  · simp only [validD, Bool.and_eq_true]
                    exact ⟨⟨ih1 r1 v r2 hval, by simpa [prevOkD] using hpd2⟩, hd2⟩
                  · cases prev with
                    | none => rfl
                    | some pk =>
                      simpa [prevOkD, firstKeyGt, prevOkKey] using hpk
            · rw [if_neg hpk] at h
              simp at h

/-- Claim C5: for every valid bencode value (all dictionary keys strictly
ascending as byte strings), decoding the encoding yields the value back;
decode is streaming-safe, returning the unconsumed remainder; the top
level rejects trailing garbage; and every top-level decodable byte stream
denotes a canonical value (sorted, duplicate-free, string-keyed
dictionaries). -/
theorem bencode_roundtrip (x : Bencode) (rest : List Nat)
    (hv : validB x = true) :
    decodeTop (encode x) = some x ∧
    decodeStream (encode x ++ rest) = some (x, rest) ∧
    (rest ≠ [] → decodeTop (encode x ++ rest) = none) ∧
    (∀ s y, decodeTop s = some y → validB y = true) := by
  have hstream : ∀ r : List Nat, decodeStream (encode x ++ r) = some (x, r) := by
    intro r
    unfold decodeStream
    exact (decode_complete ((encode x ++ r).length + 1)).1 x r hv
      (by simp only [List.length_append]; omega)
  refine ⟨?_, hstream rest, ?_, ?_⟩
  · have h := hstream []
    rw [List.append_nil] at h
    unfold decodeTop
    rw [h]
  · intro hne
    unfold decodeTop
    rw [hstream rest]
    cases rest with
    | nil => exact absurd rfl hne
    | cons a as => rfl
  · intro s y hy
    unfold decodeTop decodeStream at hy
    cases hval : decodeVal (s.length + 1) s with
    | none => rw [hval] at hy; simp at hy
    | some r =>
      obtain ⟨x0, rem⟩ := r
      rw [hval] at hy
      cases rem with
      | nil =>
        simp only [Option.some.injEq] at hy
        rw [← hy]
        exact (decode_sound (s.length + 1)).1 s x0 [] hval
      | cons a as => simp at hy

/-- Witness for `bencode_roundtrip` at a concrete dictionary exercising
strings, integers, lists and nested dictionaries. -/
theorem bencode_roundtrip_witness :
    validB bencW = true ∧
    ([120] : List Nat) ≠ [] ∧
    decodeTop (encode bencW) = some bencW ∧
    decodeStream (encode bencW ++ [120]) = some (bencW, [120]) ∧
    decodeTop (encode bencW ++ [120]) = none :=
  ⟨rfl, by decide, (bencode_roundtrip bencW [120] rfl).1,
   (bencode_roundtrip bencW [120] rfl).2.1,
   (bencode_roundtrip bencW [120] rfl).2.2.1 (by decide)⟩

/-- Witness for `dual_resolution_order_and_timeout` at the hostname
`"example.com"` with a resolver listing the IPv6 address first. -/
theorem dual_resolution_order_and_timeout_witness :
    is_valid_ipv4 "example.com" = false ∧
    is_valid_ipv6 "example.com" = false ∧
    dualEnvW.dnsDual "example.com"
        = (AddrFamily.inet6, "2001:db8::7") :: [(AddrFamily.inet, "203.0.113.5")] ∧
    (resolve_all_addresses_dual dualEnvW "example.com").head? = some "2001:db8::7" :=
  ⟨by decide, by decide, rfl,
   (dual_resolution_order_and_timeout dualEnvW "example.com" "2001:db8::7" 0
      [(AddrFamily.inet, "203.0.113.5")]).2.2.1 (by decide) (by decide) rfl⟩

end Librats
